import Mathlib

/-!
# near-trustless-bridge / near-lite-client: shallow embedding

A shallow embedding of the core of `src/near-lite-client`:

* the domain types of `src/types.rs` (block views, validator stakes, Merkle
  path items) with bytes modelled as `List Nat` (each entry a byte value) and
  the machine integers `u32`/`u64`/`u128` modelled as `Nat`, reduced modulo
  `2 ^ width` exactly where the Rust arithmetic wraps;
* the borsh encoding the source derives with `BorshSerialize` (little-endian
  fixed-width integers, `u32` length prefixes for sequences and strings, one
  discriminant byte for enums and `Option`);
* the hashing scheme of `types.rs` (`current_block_hash`, which drops
  `timestamp_nanosec` via `BlockHeaderInnerLiteViewFinal`) and of
  `block_validation.rs` (`next_block_hash`,
  `reconstruct_light_client_block_view_fields`);
* the Merkle fold of `merkle_tree.rs` (`compute_root_from_path`,
  `combine_hash`), with the fallible hash-length coercion modelled as
  `Option`;
* `validate_light_block` of `block_validation.rs`, modelled as
  `Option Bool` where `none` models a Rust panic (the source contains two
  `unwrap` calls on input-derived data: the public-key conversion inside the
  approvals loop and `next_bps.as_deref().unwrap()` in rule 6).

The digest capability (`trait Digest`) and Ed25519 signature verification are
injected parameters, exactly as in the source, so every theorem quantifies
over them (or instantiates them with concrete functions for witnesses).
Where the Rust source can overflow (`total_stake * 2`, `+=` on `u128`,
`height + 2` on `u64`) the model wraps, matching release-profile semantics.
-/

namespace NearLiteClient

/-- A byte string: a list of byte values. -/
abbrev Bytes := List Nat

/-- `CryptoHash`: a 32-byte hash, modelled as its byte list. -/
abbrev CryptoHash := Bytes

/-- Signatures are opaque tokens here; only the injected verification
function inspects them (mirroring the `Signature::verify` capability). -/
abbrev Signature := Nat

/-- Little-endian fixed-width integer encoding: `width` bytes, byte `i` being
`n / 256^i % 256`.  This is borsh's integer encoding and inherently reduces
`n` modulo `2 ^ (8 * width)`. -/
def encodeUInt (width n : Nat) : Bytes :=
  (List.range width).map (fun i => n / 256 ^ i % 256)

/-- borsh `u32` (used for length prefixes). -/
def encodeU32 (n : Nat) : Bytes := encodeUInt 4 n

/-- borsh `u64`. -/
def encodeU64 (n : Nat) : Bytes := encodeUInt 8 n

/-- borsh `u128` (validator stakes). -/
def encodeU128 (n : Nat) : Bytes := encodeUInt 16 n

/-- `near_crypto::PublicKey`: ed25519 keys (32 bytes of key data) or
secp256k1 keys (64 bytes); only the former convert to `[u8; 32]`. -/
inductive PublicKey
  | ed25519 (key : Bytes)
  | secp256k1 (key : Bytes)
deriving DecidableEq, Repr

/-- Models `validator_stake.public_key.try_into() : Result<[u8; 32], _>`
(`block_validation.rs` line 75): succeeds exactly on ed25519 keys. -/
def PublicKey.tryIntoKeyBytes : PublicKey → Option Bytes
  | .ed25519 key => some key
  | .secp256k1 _ => none

/-- `ValidatorStakeViewV1` of `types.rs`: account id (UTF-8 bytes), public
key, and `u128` stake. -/
structure ValidatorStakeViewV1 where
  account_id : Bytes
  public_key : PublicKey
  stake : Nat
deriving DecidableEq, Repr

/-- `ValidatorStakeView` of `types.rs`: a tagged variant with the single case
`V1`; the tag byte is preserved by the encoder. -/
inductive ValidatorStakeView
  | V1 (v : ValidatorStakeViewV1)
deriving DecidableEq, Repr

/-- Stake accessor (the source reads `validator_stake.stake` through the
`V1` payload). -/
def ValidatorStakeView.stake : ValidatorStakeView → Nat
  | .V1 v => v.stake

/-- Public-key accessor through the `V1` payload. -/
def ValidatorStakeView.public_key : ValidatorStakeView → PublicKey
  | .V1 v => v.public_key

/-- `BlockHeaderInnerLiteView` of `types.rs` (the full flavour, with
`timestamp_nanosec`). -/
structure BlockHeaderInnerLiteView where
  height : Nat
  epoch_id : CryptoHash
  next_epoch_id : CryptoHash
  prev_state_root : CryptoHash
  outcome_root : CryptoHash
  timestamp : Nat
  timestamp_nanosec : Nat
  next_bp_hash : CryptoHash
  block_merkle_root : CryptoHash
deriving DecidableEq, Repr

/-- `BlockHeaderInnerLiteViewFinal` of `types.rs`: the same fields minus
`timestamp_nanosec`; this reduced struct is what block hashing encodes. -/
structure BlockHeaderInnerLiteViewFinal where
  height : Nat
  epoch_id : CryptoHash
  next_epoch_id : CryptoHash
  prev_state_root : CryptoHash
  outcome_root : CryptoHash
  timestamp : Nat
  next_bp_hash : CryptoHash
  block_merkle_root : CryptoHash
deriving DecidableEq, Repr

/-- The `From<BlockHeaderInnerLiteView> for BlockHeaderInnerLiteViewFinal`
impl of `types.rs`: copy every field except `timestamp_nanosec`. -/
def BlockHeaderInnerLiteViewFinal.fromView (b : BlockHeaderInnerLiteView) :
    BlockHeaderInnerLiteViewFinal where
  height := b.height
  epoch_id := b.epoch_id
  next_epoch_id := b.next_epoch_id
  prev_state_root := b.prev_state_root
  outcome_root := b.outcome_root
  timestamp := b.timestamp
  next_bp_hash := b.next_bp_hash
  block_merkle_root := b.block_merkle_root

/-- `LightClientBlockView` of `types.rs`. -/
structure LightClientBlockView where
  prev_block_hash : CryptoHash
  next_block_inner_hash : CryptoHash
  inner_lite : BlockHeaderInnerLiteView
  inner_rest_hash : CryptoHash
  next_bps : Option (List ValidatorStakeView)
  approvals_after_next : List (Option Signature)
deriving DecidableEq, Repr

/-- `ApprovalInner` of `types.rs`: `Endorsement(CryptoHash)` or
`Skip(BlockHeight)`. -/
inductive ApprovalInner
  | Endorsement (h : CryptoHash)
  | Skip (height : Nat)
deriving DecidableEq, Repr

/-- Merkle direction (`types.rs`). -/
inductive Direction
  | Left
  | Right
deriving DecidableEq, Repr

/-- `MerklePathItem` of `types.rs`. -/
structure MerklePathItem where
  hash : CryptoHash
  direction : Direction
deriving DecidableEq, Repr

/-! ## borsh encodings used by hashing and rule 6 -/

/-- borsh of a `String` / byte vector: `u32` length prefix then raw bytes. -/
def encodeBytesWithLen (b : Bytes) : Bytes := encodeU32 b.length ++ b

/-- borsh of `near_crypto::PublicKey`: discriminant byte (0 = ED25519,
1 = SECP256K1) followed by the raw key bytes. -/
def encodePublicKey : PublicKey → Bytes
  | .ed25519 key => 0 :: key
  | .secp256k1 key => 1 :: key

/-- borsh of `ValidatorStakeView`: the `V1` tag byte, then the struct fields
in declared order. -/
def encodeValidatorStakeView : ValidatorStakeView → Bytes
  | .V1 v =>
    0 :: (encodeBytesWithLen v.account_id ++ encodePublicKey v.public_key
          ++ encodeU128 v.stake)

/-- borsh of `Vec<ValidatorStakeView>`: `u32` length prefix then the
elements' encodings concatenated. -/
def encodeValidatorStakeViewList (l : List ValidatorStakeView) : Bytes :=
  encodeU32 l.length ++ (l.map encodeValidatorStakeView).flatten

/-- borsh of `BlockHeaderInnerLiteViewFinal`: fields in declared order;
hashes are raw 32-byte arrays (no length prefix). -/
def encodeBlockHeaderInnerLiteViewFinal (b : BlockHeaderInnerLiteViewFinal) :
    Bytes :=
  encodeU64 b.height ++ b.epoch_id ++ b.next_epoch_id ++ b.prev_state_root
    ++ b.outcome_root ++ encodeU64 b.timestamp ++ b.next_bp_hash
    ++ b.block_merkle_root

/-- borsh of `ApprovalInner`: discriminant byte (0 = Endorsement, 1 = Skip)
followed by the variant payload. -/
def encodeApprovalInner : ApprovalInner → Bytes
  | .Endorsement h => 0 :: h
  | .Skip height => 1 :: encodeU64 height

/-! ## Hashing scheme -/

/-- The injected `Digest` capability of `block_validation.rs`. -/
abbrev DigestFn := Bytes → Bytes

/-- The free function `current_block_hash` of `types.rs` (lines 175-192):
`D( D(inner_lite_hash || inner_rest_hash) || prev_block_hash )`.  The
source's slice-to-`CryptoHash` coercions apply to the digest capability's
own 32-byte output, not to input-derived data, and are modelled as the
identity. -/
def currentBlockHashFromParts (D : DigestFn)
    (inner_lite_hash inner_rest_hash prev_block_hash : CryptoHash) :
    CryptoHash :=
  D (D (inner_lite_hash ++ inner_rest_hash) ++ prev_block_hash)

/-- `LightClientBlockView::current_block_hash` of `types.rs`: hash the borsh
encoding of the reduced inner-lite struct (dropping `timestamp_nanosec`),
then combine with `inner_rest_hash` and `prev_block_hash`. -/
def LightClientBlockView.current_block_hash (D : DigestFn)
    (bv : LightClientBlockView) : CryptoHash :=
  currentBlockHashFromParts D
    (D (encodeBlockHeaderInnerLiteViewFinal
      (BlockHeaderInnerLiteViewFinal.fromView bv.inner_lite)))
    bv.inner_rest_hash bv.prev_block_hash

/-- `next_block_hash` of `block_validation.rs` (lines 125-133):
`D( next_block_inner_hash || current_block_hash )`. -/
def next_block_hash (D : DigestFn)
    (next_block_inner_hash current_block_hash : CryptoHash) : CryptoHash :=
  D (next_block_inner_hash ++ current_block_hash)

/-- `reconstruct_light_client_block_view_fields` of `block_validation.rs`:
returns `(current_block_hash, next_block_hash, approval_message)` where the
approval message is `borsh(ApprovalInner::Endorsement(next_block_hash))`
followed by the raw little-endian `u64` `height + 2` (`.to_le()` is the
identity on the numeric value; `encodeU64` reduces mod `2 ^ 64`, matching
wrapping `u64` addition). -/
def reconstruct_light_client_block_view_fields (D : DigestFn)
    (bv : LightClientBlockView) : CryptoHash × CryptoHash × Bytes :=
  let current_block_hash := bv.current_block_hash D
  let nbh := next_block_hash D bv.next_block_inner_hash current_block_hash
  let approval_message :=
    encodeApprovalInner (.Endorsement nbh)
      ++ encodeU64 (bv.inner_lite.height + 2)
  (current_block_hash, nbh, approval_message)

/-! ## Merkle fold (`merkle_tree.rs`) -/

/-- `combine_hash` of `merkle_tree.rs`: borsh of the pair `(hash1, hash2)`
is the raw 64-byte concatenation (fixed-width fields, no length prefix);
`MerkleHash::try_from` fails unless the digest output has exactly 32
bytes, so the result is an `Option`. -/
def combine_hash (D : DigestFn) (hash1 hash2 : CryptoHash) :
    Option CryptoHash :=
  let d := D (hash1 ++ hash2)
  if d.length = 32 then some d else none

/-- `compute_root_from_path` of `merkle_tree.rs`: fold the path in order
starting from the leaf hash, combining on the left for `Left` items and on
the right for `Right` items; a `combine_hash` failure propagates (the
source's `?`). -/
def compute_root_from_path (D : DigestFn) (path : List MerklePathItem)
    (item_hash : CryptoHash) : Option CryptoHash :=
  match path with
  | [] => some item_hash
  | item :: rest =>
    match (match item.direction with
           | .Left => combine_hash D item.hash item_hash
           | .Right => combine_hash D item_hash item.hash) with
    | none => none
    | some res => compute_root_from_path D rest res

/-! ## Block validation (`block_validation.rs`) -/

/-- The injected signature-verification capability:
`signature.verify(message, public_keys)`. -/
abbrev VerifyFn := Signature → Bytes → List Bytes → Bool

/-- `2 ^ 128`: the modulus of the wrapping `u128` arithmetic in the stake
accumulation. -/
def u128Mod : Nat := 2 ^ 128

/-- Outcome of the approvals/stake loop of `validate_light_block`
(lines 57-82):
* `crash` — the `try_into().unwrap()` on a validator public key failed
  (a Rust panic);
* `invalidSignature` — a present signature failed verification (the
  source's early `return false`);
* `done total approved` — the zip was exhausted with the accumulated
  (wrapping `u128`) total and approved stake. -/
inductive ApprovalsLoopResult
  | crash
  | invalidSignature
  | done (total_stake approved_stake : Nat)
deriving DecidableEq, Repr

/-- The `for (maybe_signature, block_producer) in approvals.zip(producers)`
loop of `validate_light_block`: the iteration stops at the shorter list;
every zipped position adds its stake to the total; absent signatures only
`continue`; present signatures add to the approved stake, require the
public-key conversion to succeed (else panic) and verification to succeed
(else `return false`). -/
def approvals_loop (verify : VerifyFn) (approval_message : Bytes) :
    List (Option Signature) → List ValidatorStakeView → Nat → Nat →
    ApprovalsLoopResult
  | [], _, total_stake, approved_stake => .done total_stake approved_stake
  | _ :: _, [], total_stake, approved_stake => .done total_stake approved_stake
  | maybe_signature :: sigs, block_producer :: bps, total_stake,
      approved_stake =>
    let bp_stake := block_producer.stake
    let total' := (total_stake + bp_stake) % u128Mod
    match maybe_signature with
    | none => approvals_loop verify approval_message sigs bps total' approved_stake
    | some sig =>
      let approved' := (approved_stake + bp_stake) % u128Mod
      match block_producer.public_key.tryIntoKeyBytes with
      | none => .crash
      | some pk =>
        if verify sig approval_message [pk] then
          approvals_loop verify approval_message sigs bps total' approved'
        else .invalidSignature

/-- `validate_light_block` of `block_validation.rs`.  `none` models a Rust
panic; `some b` is the function's boolean result.  The block producers are
supplied as the iteration sequence of the `HashMap` argument (only the
values are used).  Faithful quirks kept from the source:
* the stake threshold is `total_stake * 2 / 3` in wrapping `u128`
  arithmetic (line 84);
* rule 6 evaluates `next_bps.as_deref().unwrap()` *before* testing
  `is_some()` (lines 90-96), so reaching rule 6 with `next_bps = None`
  panics. -/
def validate_light_block (D : DigestFn) (verify : VerifyFn)
    (head block_view : LightClientBlockView)
    (epoch_block_producers : List ValidatorStakeView) : Option Bool :=
  let fields := reconstruct_light_client_block_view_fields D block_view
  let approval_message := fields.2.2
  -- (1) height monotonicity
  if block_view.inner_lite.height ≤ head.inner_lite.height then some false
  -- (2) epoch linkage
  else if ¬ (block_view.inner_lite.epoch_id = head.inner_lite.epoch_id ∨
      block_view.inner_lite.epoch_id = head.inner_lite.next_epoch_id) then
    some false
  -- (3) epoch-boundary completeness
  else if block_view.inner_lite.epoch_id = head.inner_lite.next_epoch_id ∧
      block_view.next_bps.isNone then some false
  else
    -- (4) and (5): approvals loop then stake quorum
    match approvals_loop verify approval_message
        block_view.approvals_after_next epoch_block_producers 0 0 with
    | .crash => none
    | .invalidSignature => some false
    | .done total_stake approved_stake =>
      let threshold := total_stake * 2 % u128Mod / 3
      if approved_stake ≤ threshold then some false
      else
        -- (6) next validator-set commitment; `unwrap` precedes `is_some`
        match block_view.next_bps with
        | none => none
        | some next_bps =>
          if D (encodeValidatorStakeViewList next_bps)
              = block_view.inner_lite.next_bp_hash then some true
          else some false

end NearLiteClient

namespace NearLiteClient

/-! ## Concrete fixtures (used by counterexamples, code-bug evaluations and
witnesses) -/

/-- A concrete digest capability with 32-byte output: the constant zero
hash. -/
def constDigest32 : DigestFn := fun _ => List.replicate 32 0

/-- A verification capability accepting every signature. -/
def verifyAlways : VerifyFn := fun _ _ _ => true

/-- A verification capability accepting exactly the signature token `0`. -/
def verifyOnlyZero : VerifyFn := fun s _ _ => s == 0

/-- The all-zero 32-byte hash. -/
def zeroHash : CryptoHash := List.replicate 32 0

/-- The 32-byte hash with every byte `b`. -/
def hashOf (b : Nat) : CryptoHash := List.replicate 32 b

/-- A minimal inner-lite header at the given height and epoch ids. -/
def innerLiteAt (height : Nat) (epoch next_epoch : CryptoHash) :
    BlockHeaderInnerLiteView where
  height := height
  epoch_id := epoch
  next_epoch_id := next_epoch
  prev_state_root := zeroHash
  outcome_root := zeroHash
  timestamp := 1
  timestamp_nanosec := 0
  next_bp_hash := zeroHash
  block_merkle_root := zeroHash

/-- A head at height 100, in epoch `hashOf 1` with next epoch `hashOf 2`. -/
def headFix : LightClientBlockView where
  prev_block_hash := zeroHash
  next_block_inner_hash := zeroHash
  inner_lite := innerLiteAt 100 (hashOf 1) (hashOf 2)
  inner_rest_hash := zeroHash
  next_bps := some []
  approvals_after_next := []

/-- A candidate block at height 101 in the head's own epoch (`hashOf 1`),
with the given `next_bps` and approvals; its `next_bp_hash` is `zeroHash`,
which is what `constDigest32` produces for any `next_bps` encoding. -/
def candidate (next_bps : Option (List ValidatorStakeView))
    (approvals : List (Option Signature)) : LightClientBlockView where
  prev_block_hash := zeroHash
  next_block_inner_hash := zeroHash
  inner_lite := innerLiteAt 101 (hashOf 1) (hashOf 3)
  inner_rest_hash := zeroHash
  next_bps := next_bps
  approvals_after_next := approvals

/-- A validator with an ed25519 key and the given stake. -/
def edValidator (stake : Nat) : ValidatorStakeView :=
  .V1 ⟨[], .ed25519 zeroHash, stake⟩

/-- The exact value of `⌊2 · 2^127 / 3⌋`. -/
def stakeC1big : Nat := (2 ^ 128 - 1) / 3

/-- The complement bringing the total stake to `2^127`. -/
def stakeC1small : Nat := 2 ^ 127 - stakeC1big

/-! ## Helper lemmas -/

/-- `encodeUInt` always produces exactly `width` bytes. -/
theorem encodeUInt_length (width n : Nat) :
    (encodeUInt width n).length = width := by
  simp [encodeUInt]

/-- `encodeU64` always produces exactly 8 bytes. -/
theorem encodeU64_length (n : Nat) : (encodeU64 n).length = 8 :=
  encodeUInt_length 8 n

/-- Dropping all but the trailing `b.length` elements of `a ++ b` leaves
`b`. -/
theorem drop_append_sub (a b : Bytes) :
    (a ++ b).drop ((a ++ b).length - b.length) = b := by
  rw [List.length_append, Nat.add_sub_cancel, List.drop_left]

/-- The approvals loop with an empty approvals list completes at once with
the accumulators unchanged. -/
theorem approvals_loop_nil (verify : VerifyFn) (msg : Bytes)
    (bps : List ValidatorStakeView) (t a : Nat) :
    approvals_loop verify msg [] bps t a = .done t a := by
  cases bps <;> rfl

/-- The approvals loop only consumes the zip of the two lists: truncating
each list to the other's length does not change the result. -/
theorem approvals_loop_take (verify : VerifyFn) (msg : Bytes) :
    ∀ (sigs : List (Option Signature)) (bps : List ValidatorStakeView)
      (t a : Nat),
      approvals_loop verify msg sigs bps t a
        = approvals_loop verify msg (sigs.take bps.length)
            (bps.take sigs.length) t a := by
  intro sigs
  induction sigs with
  | nil => intro bps t a; cases bps <;> rfl
  | cons s ss ih =>
    intro bps t a
    cases bps with
    | nil => rfl
    | cons b bs =>
      simp only [List.length_cons, List.take_succ_cons]
      cases s with
      | none => simp only [approvals_loop]; exact ih bs _ _
      | some sig =>
        simp only [approvals_loop]
        cases b.public_key.tryIntoKeyBytes with
        | none => rfl
        | some pk =>
          by_cases hv : verify sig msg [pk] = true
          · simp only [hv, if_true]; exact ih bs _ _
          · simp only [eq_false_of_ne_true hv, Bool.false_eq_true, if_false]

/-- When every present signature in the zip verifies against the public key
of the validator at the same position, the loop completes, returning the
wrapped running sums of all zipped stakes (total) and of the stakes at
positions with a present signature (approved). -/
theorem approvals_loop_done_of_all_valid (verify : VerifyFn) (msg : Bytes) :
    ∀ (sigs : List (Option Signature)) (bps : List ValidatorStakeView)
      (t a : Nat),
      (∀ p ∈ sigs.zip bps, ∀ s, p.1 = some s →
        ∃ pk, p.2.public_key.tryIntoKeyBytes = some pk ∧
          verify s msg [pk] = true) →
      approvals_loop verify msg sigs bps t a
        = .done
            ((sigs.zip bps).foldl
              (fun acc p => (acc + p.2.stake) % u128Mod) t)
            ((sigs.zip bps).foldl
              (fun acc p =>
                if p.1.isSome then (acc + p.2.stake) % u128Mod else acc) a) := by
  intro sigs
  induction sigs with
  | nil => intro bps t a _; cases bps <;> rfl
  | cons s ss ih =>
    intro bps t a hall
    cases bps with
    | nil => rfl
    | cons b bs =>
      cases s with
      | none =>
        simp only [approvals_loop, List.zip_cons_cons, List.foldl_cons,
          Option.isSome_none, if_false]
        exact ih bs _ _ (fun p hp => hall p (List.mem_cons_of_mem _ hp))
      | some sig =>
        obtain ⟨pk, hpk, hv⟩ :=
          hall (some sig, b) (List.mem_cons_self _ _) sig rfl
        simp only [approvals_loop, List.zip_cons_cons, List.foldl_cons, hpk,
          hv, if_true, Option.isSome_some]
        exact ih bs _ _ (fun p hp => hall p (List.mem_cons_of_mem _ hp))

/-- When every present signature's validator key converts (so the loop never
panics) and some present signature in the zip fails verification against
its positional key, the loop reports an invalid signature. -/
theorem approvals_loop_invalid (verify : VerifyFn) (msg : Bytes) :
    ∀ (sigs : List (Option Signature)) (bps : List ValidatorStakeView)
      (t a : Nat),
      (∀ p ∈ sigs.zip bps, ∀ s, p.1 = some s →
        (p.2.public_key.tryIntoKeyBytes).isSome) →
      (∃ p ∈ sigs.zip bps, ∃ s pk, p.1 = some s ∧
        p.2.public_key.tryIntoKeyBytes = some pk ∧
        verify s msg [pk] = false) →
      approvals_loop verify msg sigs bps t a = .invalidSignature := by
  intro sigs
  induction sigs with
  | nil =>
    intro bps t a _ hex
    obtain ⟨p, hp, _⟩ := hex
    simp at hp
  | cons s ss ih =>
    intro bps t a hconv hex
    cases bps with
    | nil =>
      obtain ⟨p, hp, _⟩ := hex
      simp at hp
    | cons b bs =>
      cases s with
      | none =>
        simp only [approvals_loop]
        refine ih bs _ _ (fun p hp => hconv p (List.mem_cons_of_mem _ hp)) ?_
        obtain ⟨p, hp, s, pk, hps, hpk, hv⟩ := hex
        rcases List.mem_cons.mp (by simpa using hp) with hhead | htail
        · subst hhead; simp at hps
        · exact ⟨p, htail, s, pk, hps, hpk, hv⟩
      | some sig =>
        have hks : ((ValidatorStakeView.public_key b).tryIntoKeyBytes).isSome :=
          hconv (some sig, b) (List.mem_cons_self _ _) sig rfl
        obtain ⟨pk, hpk⟩ := Option.isSome_iff_exists.mp hks
        simp only [approvals_loop, hpk]
        by_cases hv : verify sig msg [pk] = true
        · simp only [hv, if_true]
          refine ih bs _ _ (fun p hp => hconv p (List.mem_cons_of_mem _ hp)) ?_
          obtain ⟨p, hp, s, pk', hps, hpk', hv'⟩ := hex
          rcases List.mem_cons.mp (by simpa using hp) with hhead | htail
          · subst hhead
            simp only at hps hpk'
            obtain rfl : sig = s := by simpa using hps
            rw [hpk] at hpk'
            obtain rfl : pk = pk' := by simpa using hpk'
            rw [hv] at hv'; cases hv'
          · exact ⟨p, htail, s, pk', hps, hpk', hv'⟩
        · simp only [eq_false_of_ne_true hv, Bool.false_eq_true, if_false]

/-- Under passing rules 1-3, `validate_light_block` reduces to the approvals
loop followed by the stake threshold and the rule-6 commitment check. -/
theorem validate_light_block_eq_loop (D : DigestFn) (verify : VerifyFn)
    (head bv : LightClientBlockView) (bps : List ValidatorStakeView)
    (h1 : head.inner_lite.height < bv.inner_lite.height)
    (h2 : bv.inner_lite.epoch_id = head.inner_lite.epoch_id ∨
          bv.inner_lite.epoch_id = head.inner_lite.next_epoch_id)
    (h3 : ¬ (bv.inner_lite.epoch_id = head.inner_lite.next_epoch_id ∧
          bv.next_bps.isNone)) :
    validate_light_block D verify head bv bps
      = match approvals_loop verify
          (reconstruct_light_client_block_view_fields D bv).2.2
          bv.approvals_after_next bps 0 0 with
        | .crash => none
        | .invalidSignature => some false
        | .done total_stake approved_stake =>
          if approved_stake ≤ total_stake * 2 % u128Mod / 3 then some false
          else match bv.next_bps with
            | none => none
            | some next_bps =>
              if D (encodeValidatorStakeViewList next_bps)
                  = bv.inner_lite.next_bp_hash then some true
              else some false := by
  unfold validate_light_block
  rw [if_neg (by omega), if_neg (not_not_intro h2), if_neg h3]

/-! ## Claim theorems -/

/-- C3: for every block view `B`, the reconstructed current block hash is
`digest( digest( digest(encode(InnerLiteForHashing from B.inner_lite))
|| B.inner_rest_hash ) || B.prev_block_hash )` — with `InnerLiteForHashing`
(`BlockHeaderInnerLiteViewFinal`) omitting `timestamp_nanosec` — the next
block hash is `digest( B.next_block_inner_hash || current_block_hash )`,
all concatenations being raw bytes, and two block views differing only in
`timestamp_nanosec` have equal current block hashes. -/
theorem claim_C3_block_hash_scheme (D : DigestFn) (bv : LightClientBlockView)
    (t : Nat) :
    (reconstruct_light_client_block_view_fields D bv).1
        = bv.current_block_hash D
    ∧ bv.current_block_hash D
        = D (D (D (encodeBlockHeaderInnerLiteViewFinal
              (BlockHeaderInnerLiteViewFinal.fromView bv.inner_lite))
            ++ bv.inner_rest_hash) ++ bv.prev_block_hash)
    ∧ (reconstruct_light_client_block_view_fields D bv).2.1
        = D (bv.next_block_inner_hash ++ bv.current_block_hash D)
    ∧ ({ bv with inner_lite := { bv.inner_lite with timestamp_nanosec := t } }
          : LightClientBlockView).current_block_hash D
        = bv.current_block_hash D :=
  ⟨rfl, rfl, rfl, rfl⟩

/-- C4: the approval message produced by
`reconstruct_light_client_block_view_fields` is
`encode(ApprovalInner::Endorsement(next_block_hash))` followed by the raw
little-endian 8-byte encoding of `height + 2` with no length prefix; its
first byte is `0x00` (the Endorsement discriminant) and its last 8 bytes
are the little-endian u64 `height + 2`. -/
theorem claim_C4_approval_message (D : DigestFn) (bv : LightClientBlockView) :
    (reconstruct_light_client_block_view_fields D bv).2.2
        = encodeApprovalInner
            (.Endorsement (reconstruct_light_client_block_view_fields D bv).2.1)
          ++ encodeU64 (bv.inner_lite.height + 2)
    ∧ ((reconstruct_light_client_block_view_fields D bv).2.2).head? = some 0
    ∧ ((reconstruct_light_client_block_view_fields D bv).2.2).drop
          (((reconstruct_light_client_block_view_fields D bv).2.2).length - 8)
        = encodeU64 (bv.inner_lite.height + 2) := by
  refine ⟨rfl, rfl, ?_⟩
  have hmsg : (reconstruct_light_client_block_view_fields D bv).2.2
      = encodeApprovalInner
          (.Endorsement (reconstruct_light_client_block_view_fields D bv).2.1)
        ++ encodeU64 (bv.inner_lite.height + 2) := rfl
  rw [hmsg, ← encodeU64_length (bv.inner_lite.height + 2)]
  exact drop_append_sub _ _

/-- C7: `compute_root_from_path` folds the path in order from the leaf,
replacing the running hash by `digest(item.hash || res)` for a `Left` item
and `digest(res || item.hash)` for a `Right` item — the pair being encoded
as the raw 64-byte concatenation — so in particular a singleton `Left`
path yields `digest(item.hash || h)` and a singleton `Right` path yields
`digest(h || item.hash)` (given the digest produces 32-byte output, so the
hash coercion of `combine_hash` succeeds). -/
theorem claim_C7_merkle_fold (D : DigestFn)
    (hD : ∀ b, (D b).length = 32) :
    (∀ (item : MerklePathItem) (h : CryptoHash), item.direction = .Left →
        compute_root_from_path D [item] h = some (D (item.hash ++ h)))
    ∧ (∀ (item : MerklePathItem) (h : CryptoHash), item.direction = .Right →
        compute_root_from_path D [item] h = some (D (h ++ item.hash)))
    ∧ (∀ (item : MerklePathItem) (rest : List MerklePathItem)
          (h : CryptoHash), item.direction = .Left →
        compute_root_from_path D (item :: rest) h
          = compute_root_from_path D rest (D (item.hash ++ h)))
    ∧ (∀ (item : MerklePathItem) (rest : List MerklePathItem)
          (h : CryptoHash), item.direction = .Right →
        compute_root_from_path D (item :: rest) h
          = compute_root_from_path D rest (D (h ++ item.hash))) := by
  refine ⟨?_, ?_, ?_, ?_⟩ <;> intro item
  · intro h hdir
    simp [compute_root_from_path, hdir, combine_hash, hD]
  · intro h hdir
    simp [compute_root_from_path, hdir, combine_hash, hD]
  · intro rest h hdir
    simp [compute_root_from_path, hdir, combine_hash, hD]
  · intro rest h hdir
    simp [compute_root_from_path, hdir, combine_hash, hD]

/-- Witness for C7: the fold law evaluated with the constant 32-byte digest
on a concrete singleton path. -/
theorem claim_C7_merkle_fold_witness :
    compute_root_from_path constDigest32
        [⟨hashOf 7, Direction.Left⟩] (hashOf 9)
      = some (constDigest32 (hashOf 7 ++ hashOf 9)) :=
  (claim_C7_merkle_fold constDigest32
      (fun _ => by simp [constDigest32])).1
    ⟨hashOf 7, Direction.Left⟩ (hashOf 9) rfl

/-- C10: `compute_root_from_path` on the empty path returns `Ok` of the leaf
hash itself, so inclusion verification with an empty path succeeds exactly
when the expected root equals the leaf hash. -/
theorem claim_C10_empty_path (D : DigestFn) (h root : CryptoHash) :
    compute_root_from_path D [] h = some h
    ∧ (compute_root_from_path D [] h = some root ↔ root = h) := by
  refine ⟨rfl, ?_⟩
  simp only [compute_root_from_path, Option.some_inj]
  exact eq_comm

/-- C1 (amended): provided `total * 2` does not overflow u128 (the source
computes the threshold as wrapping `total_stake * 2 / 3`), a candidate
passing all other acceptance rules is accepted iff
`approved * 3 > total * 2` in exact integer arithmetic; in particular
`approved = ⌊2·total/3⌋` is rejected and `approved = ⌊2·total/3⌋ + 1` is
accepted. -/
theorem claim_C1_quorum_boundary (D : DigestFn) (verify : VerifyFn)
    (head bv : LightClientBlockView) (bps nbps : List ValidatorStakeView)
    (total approved : Nat)
    (h1 : head.inner_lite.height < bv.inner_lite.height)
    (h2 : bv.inner_lite.epoch_id = head.inner_lite.epoch_id ∨
          bv.inner_lite.epoch_id = head.inner_lite.next_epoch_id)
    (hbps : bv.next_bps = some nbps)
    (hhash : D (encodeValidatorStakeViewList nbps)
        = bv.inner_lite.next_bp_hash)
    (hloop : approvals_loop verify
        (reconstruct_light_client_block_view_fields D bv).2.2
        bv.approvals_after_next bps 0 0 = .done total approved)
    (hov : total * 2 < u128Mod) :
    validate_light_block D verify head bv bps = some true
      ↔ approved * 3 > total * 2 := by
  rw [validate_light_block_eq_loop D verify head bv bps h1 h2
    (by simp [hbps]), hloop]
  simp only [hbps, hhash, if_true, Nat.mod_eq_of_lt hov]
  by_cases hq : approved ≤ total * 2 / 3
  · have hn : ¬ total * 2 < approved * 3 := by
      intro hlt
      exact absurd ((Nat.div_lt_iff_lt_mul (by omega)).mpr hlt) (by omega)
    simp [hq, hn]
  · have hp : total * 2 < approved * 3 :=
      (Nat.div_lt_iff_lt_mul (by omega)).mp (by omega)
    simp [hq, hp, gt_iff_lt]

/-- Witness for C1: a unanimously signed candidate with stake 3 out of 3 is
accepted (`3 * 3 > 3 * 2`). -/
theorem claim_C1_quorum_boundary_witness :
    validate_light_block constDigest32 verifyAlways headFix
        (candidate (some []) [some 0]) [edValidator 3] = some true :=
  (claim_C1_quorum_boundary constDigest32 verifyAlways headFix
      (candidate (some []) [some 0]) [edValidator 3] [] 3 3
      (by decide) (Or.inl (by decide)) rfl (by decide) (by decide)
      (by decide)).mpr (by decide)

/-- Counterexample to C1 as stated: every rule other than the stake quorum
passes, the validator stakes sum to exactly `2^127`, and the approved stake
is exactly `⌊2·total/3⌋ = (2^128 - 1) / 3` — which the claim says must be
REJECTED — yet `validate_light_block` accepts, because `total_stake * 2`
wraps to `0` in u128 and the computed threshold is `0`. -/
theorem claim_C1_counterexample :
    validate_light_block constDigest32 verifyAlways headFix
        (candidate (some []) [some 0, none])
        [edValidator stakeC1big, edValidator stakeC1small] = some true
    ∧ stakeC1big = 2 ^ 127 * 2 / 3
    ∧ stakeC1big + stakeC1small = 2 ^ 127 :=
  ⟨by decide, by decide, by decide⟩

/-- C2: `validate_light_block` checks approvals positionally against the
supplied validator sequence:
1. the joint iteration stops at the shorter of the two sequences (truncating
   both to the zip changes nothing);
2. when every present signature verifies against the public key of the
   validator at the same position (absent positions contributing no check),
   the approvals loop completes with the running stake sums — total over all
   zipped positions, approved over positions with a present signature;
3. if rules 1-3 pass, every zipped present signature has a convertible key,
   and some present signature fails verification against its positional
   key, the function returns `false`. -/
theorem claim_C2_positional_signature_checks (D : DigestFn)
    (verify : VerifyFn) (head bv : LightClientBlockView)
    (bps : List ValidatorStakeView) :
    (validate_light_block D verify head bv bps
      = validate_light_block D verify head
          { bv with approvals_after_next :=
              bv.approvals_after_next.take bps.length }
          (bps.take bv.approvals_after_next.length))
    ∧ ((∀ p ∈ bv.approvals_after_next.zip bps, ∀ s, p.1 = some s →
          ∃ pk, p.2.public_key.tryIntoKeyBytes = some pk ∧
            verify s (reconstruct_light_client_block_view_fields D bv).2.2
              [pk] = true) →
        approvals_loop verify
            (reconstruct_light_client_block_view_fields D bv).2.2
            bv.approvals_after_next bps 0 0
          = .done
              ((bv.approvals_after_next.zip bps).foldl
                (fun acc p => (acc + p.2.stake) % u128Mod) 0)
              ((bv.approvals_after_next.zip bps).foldl
                (fun acc p =>
                  if p.1.isSome then (acc + p.2.stake) % u128Mod else acc) 0))
    ∧ (head.inner_lite.height < bv.inner_lite.height →
        (bv.inner_lite.epoch_id = head.inner_lite.epoch_id ∨
          bv.inner_lite.epoch_id = head.inner_lite.next_epoch_id) →
        ¬ (bv.inner_lite.epoch_id = head.inner_lite.next_epoch_id ∧
          bv.next_bps.isNone) →
        (∀ p ∈ bv.approvals_after_next.zip bps, ∀ s, p.1 = some s →
          (p.2.public_key.tryIntoKeyBytes).isSome) →
        (∃ p ∈ bv.approvals_after_next.zip bps, ∃ s pk, p.1 = some s ∧
          p.2.public_key.tryIntoKeyBytes = some pk ∧
          verify s (reconstruct_light_client_block_view_fields D bv).2.2
            [pk] = false) →
        validate_light_block D verify head bv bps = some false) := by
  refine ⟨?_, ?_, ?_⟩
  · unfold validate_light_block
    dsimp only
    rw [approvals_loop_take verify
      (reconstruct_light_client_block_view_fields D bv).2.2
      bv.approvals_after_next bps 0 0]
    rfl
  · intro hall
    exact approvals_loop_done_of_all_valid verify _ _ _ 0 0 hall
  · intro h1 h2 h3 hconv hex
    rw [validate_light_block_eq_loop D verify head bv bps h1 h2 h3,
      approvals_loop_invalid verify _ _ _ 0 0 hconv hex]

/-- Witness for C2: with a capability accepting only the signature token
`0`, a candidate carrying the present-but-wrong signature token `1` is
rejected with `false`. -/
theorem claim_C2_positional_signature_checks_witness :
    validate_light_block constDigest32 verifyOnlyZero headFix
        (candidate (some []) [some 1]) [edValidator 300] = some false :=
  (claim_C2_positional_signature_checks constDigest32 verifyOnlyZero headFix
      (candidate (some []) [some 1]) [edValidator 300]).2.2
    (by decide) (by decide) (by decide)
    (fun p hp s _ => by
      obtain rfl := List.mem_singleton.mp hp
      decide)
    ⟨(some 1, edValidator 300), by decide, 1, zeroHash, rfl, rfl, rfl⟩

/-- C5: the claim says a same-epoch candidate with `next_bps` absent is
accepted whenever rules 1-5 pass, with no commitment check.  The source
instead panics: rule 6 evaluates `next_bps.as_deref().unwrap()` before
testing `is_some()` (`block_validation.rs` lines 90-96).  On the spec's own
happy-path scenario (same epoch, height 101 > 100, one valid signature over
the full stake of 300, `next_bps = None`) the model yields `none` (panic)
rather than a boolean. -/
theorem claim_C5_next_bps_unwrap_panics :
    validate_light_block constDigest32 verifyAlways headFix
        (candidate none [some 0]) [edValidator 300] = none := by decide

/-- C6: the claim says `validate_light_block` never panics and that a
present signature at a position whose validator key cannot be parsed is a
validation failure (`false`).  The source instead unwraps the key
conversion (`try_into().unwrap()`, `block_validation.rs` line 75): with a
secp256k1 validator key and a present signature, the model yields `none`
(panic), not `some false`. -/
theorem claim_C6_pubkey_unwrap_panics :
    validate_light_block constDigest32 verifyAlways headFix
        (candidate (some []) [some 0])
        [ValidatorStakeView.V1
          ⟨[], .secp256k1 (List.replicate 64 0), 300⟩] = none := by decide

/-- C8: the claim says the stake decision always equals
`approved * 3 > total * 2` in exact arithmetic thanks to overflow-guarded
accumulation.  The source uses plain wrapping u128 arithmetic: with stakes
`1` (signed) and `2^127 - 1` (absent), the exact total is `2^127`, the
approved stake is `1`, and exact arithmetic rejects (`1 * 3 ≤ 2^127 * 2`),
yet the code accepts because `total_stake * 2` wraps to `0`. -/
theorem claim_C8_overflow_unguarded :
    validate_light_block constDigest32 verifyAlways headFix
        (candidate (some []) [some 0, none])
        [edValidator 1, edValidator (2 ^ 127 - 1)] = some true
    ∧ ¬ ((1 : Nat) * 3 > 2 ^ 127 * 2)
    ∧ (1 : Nat) + (2 ^ 127 - 1) = 2 ^ 127 :=
  ⟨by decide, by decide, by decide⟩

/-- C9: a candidate whose `approvals_after_next` list is empty is always
rejected: the joint iteration contributes nothing, both stake sums are `0`,
and `0 ≤ threshold` fails the quorum — regardless of the supplied validator
set (and before rule 6's `unwrap` is reached, so no panic either). -/
theorem claim_C9_empty_approvals (D : DigestFn) (verify : VerifyFn)
    (head bv : LightClientBlockView) (bps : List ValidatorStakeView) :
    validate_light_block D verify head
        { bv with approvals_after_next := [] } bps = some false := by
  unfold validate_light_block
  dsimp only
  split
  · rfl
  split
  · rfl
  split
  · rfl
  rw [approvals_loop_nil]
  simp

end NearLiteClient
